import Mathlib

/-!
Verification of the p2pfile transfer core (`src/transfer/file_transfer.py`).

The Python class `FileTransfer` is shallowly embedded here:
* socket reads are modelled on an explicit byte list (`List Nat`, one entry
  per byte) with `recv n` returning the first `min n available` bytes;
* socket writes are modelled as a list of wire `Frame`s (a 64-byte command
  frame, a 1024-byte JSON header frame, an 8-byte big-endian chunk length,
  or raw chunk payload bytes);
* the destination file and the `<path>.resume` sidecar live in a `World`
  record; opening with mode `wb` truncates the destination bytes, `ab`
  appends; the sidecar is `none` (no file), `some none` (a sidecar file
  exists but its JSON cannot be parsed), or `some (some r)` (parseable
  record `r`);
* the MD5 digest of `_calculate_file_hash` is an external library call and
  is abstracted as a function parameter `hash : List Nat -> String` applied
  to the file bytes; both endpoints use the same parameter;
* `time.time()` is a `now : Nat` parameter; `speed` is a float in the
  source, stored here as a `Nat` with integer division standing in for
  float division (the claims only ever ask whether `speed` was mutated);
* the host callback is modelled by its decision (`accepted : Bool` for a
  `request` event); other callback invocations only notify and are not
  modelled as state.
-/

/-- `BUFFER_SIZE = 8192` from the source. -/
def BUFFER_SIZE : Nat := 8192

/-- `CHUNK_SIZE = 1024 * 1024` from the source. -/
def CHUNK_SIZE : Nat := 1024 * 1024

/-- `HEADER_SIZE = 1024` from the source (header frames are fixed width). -/
def HEADER_SIZE : Nat := 1024

/-- `COMMAND_SIZE = 64` from the source (command frames are fixed width). -/
def COMMAND_SIZE : Nat := 64

def CMD_REQUEST : String := "REQUEST"

def CMD_ACCEPT : String := "ACCEPT"

def CMD_REJECT : String := "REJECT"

def CMD_DATA : String := "DATA"

def CMD_RESUME : String := "RESUME"

def CMD_COMPLETE : String := "COMPLETE"

def CMD_ERROR : String := "ERROR"

/-- Python file-open modes used by the transfer core. -/
inductive FMode
  | wb
  | ab
  | rb
deriving DecidableEq

/-- An open file handle; `pos` is the read cursor (used in `rb` mode;
write modes append at the end of the modelled destination bytes). -/
structure FileHandle where
  mode : FMode
  pos : Nat
deriving DecidableEq

/-- The JSON sidecar record written by `_save_resume_info`. -/
structure ResumeRecord where
  file_path : String
  file_size : Nat
  transferred_size : Nat
  timestamp : Nat
deriving DecidableEq

/-- Destination-side filesystem state: the destination file bytes and the
`<path>.resume` sidecar (`none` = absent, `some none` = present but
unparseable, `some (some r)` = present with record `r`). -/
structure World where
  destBytes : List Nat
  sidecar : Option (Option ResumeRecord)
deriving DecidableEq

/-- The mutable fields of a `FileTransfer` instance. -/
structure TState where
  transfer_active : Bool
  transfer_paused : Bool
  transfer_completed : Bool
  transfer_error : Option String
  file_size : Nat
  transferred_size : Nat
  start_time : Nat
  speed : Nat
  current_file : Option FileHandle
  current_file_path : Option String
deriving DecidableEq

/-- `FileTransfer.__init__`: all flags false, sizes zero, no open file. -/
def initState : TState :=
  ⟨false, false, false, none, 0, 0, 0, 0, none, none⟩

/-- The JSON documents carried by 1024-byte header frames. -/
inductive Header
  | requestH (file_name : String) (file_size : Nat) (file_hash : String)
  | resumeH (file_name : String) (transferred_size : Nat)
  | completeH (file_hash : String)
  | errorH (msg : String)
deriving DecidableEq

/-- One unit written to the socket: a 64-byte command frame, a 1024-byte
header frame, the 8-byte big-endian chunk length, or raw chunk bytes. -/
inductive Frame
  | cmd (name : String)
  | hdr (h : Header)
  | size (n : Nat)
  | raw (bytes : List Nat)
deriving DecidableEq

/-- `len(chunk).to_bytes(8, byteorder='big')`: the 8 big-endian bytes of
`n` (most significant first). -/
def beEncode (n : Nat) : List Nat :=
  [n / 72057594037927936 % 256, n / 281474976710656 % 256,
   n / 1099511627776 % 256, n / 4294967296 % 256,
   n / 16777216 % 256, n / 65536 % 256, n / 256 % 256, n % 256]

/-- `int.from_bytes(size_data, byteorder='big')`. -/
def beDecode (l : List Nat) : Nat :=
  l.foldl (fun acc b => acc * 256 + b) 0

/-- The `while received_size < chunk_size` loop of `_handle_data`
(lines 259-266): `recv` returns the first `min BUFFER_SIZE remaining`
available bytes; an empty `recv` result (peer closed) raises, modelled as
`none`.  On success it returns the accumulated chunk and the unread rest
of the stream. -/
def read_chunk_loop (avail : List Nat) (need : Nat) :
    Option (List Nat × List Nat) :=
  if h0 : need = 0 then some ([], avail)
  else
    let data := avail.take (min BUFFER_SIZE need)
    if hd : data.length = 0 then none
    else
      match read_chunk_loop (avail.drop (min BUFFER_SIZE need))
          (need - data.length) with
      | none => none
      | some p => some (data ++ p.1, p.2)
termination_by need
decreasing_by
  simp only [data] at hd
  omega

/-- Lines 255-266 of `_handle_data`: read the 8-byte length, decode it
big-endian, then loop until that many payload bytes are accumulated.
Returns the announced size together with the loop result (`none` models
the raised connection-closed exception). -/
def read_chunk (avail : List Nat) : Nat × Option (List Nat × List Nat) :=
  let size_data := avail.take 8
  let chunk_size := beDecode size_data
  (chunk_size, read_chunk_loop (avail.drop 8) chunk_size)

/-- `_save_resume_info` (lines 727-746): if `current_file_path` is unset,
do nothing; otherwise overwrite the sidecar with a record carrying the
path, `file_size`, `transferred_size`, and the current time. -/
def save_resume_info (st : TState) (w : World) (now : Nat) : World :=
  match st.current_file_path with
  | none => w
  | some p =>
      { w with
        sidecar := some (some ⟨p, st.file_size, st.transferred_size, now⟩) }

/-- Result of `_handle_data`: the session state, the filesystem, the
frames written to the socket, and the bytes of the incoming stream left
unread. -/
structure DataResult where
  st : TState
  w : World
  out : List Frame
  rest : List Nat
deriving DecidableEq

/-- The speed recomputation shared by `_handle_data` and
`_send_file_data`: `speed = transferred_size / elapsed` when the elapsed
time is positive, else unchanged (the source guards `elapsed_time > 0`). -/
def speedCalc (transferred start_time now oldSpeed : Nat) : Nat :=
  if start_time < now then transferred / (now - start_time) else oldSpeed

/-- `_handle_data` (lines 245-292).  If the transfer is not active or is
paused, return at once reading nothing.  Otherwise read the 8-byte length
and then the payload via `read_chunk`; on success append the payload to
the open file, add the announced `chunk_size` to `transferred_size`,
recompute `speed`, and overwrite the resume sidecar; if the stream closes
mid-chunk (or no file is open) the `except` branch records the error,
clears `transfer_active`, and sends a bare `ERROR` command frame — the
source sends no `{error}` header on this path. -/
def handle_data (st : TState) (w : World) (avail : List Nat) (now : Nat) :
    DataResult :=
  if !st.transfer_active || st.transfer_paused then ⟨st, w, [], avail⟩
  else
    let r := read_chunk avail
    match r.2 with
    | none =>
        ⟨{ st with transfer_error := some ("连接已关闭"),
                   transfer_active := false },
         w, [Frame.cmd CMD_ERROR], []⟩
    | some p =>
        match st.current_file with
        | none =>
            ⟨{ st with transfer_error := some ("no open file"),
                       transfer_active := false },
             w, [Frame.cmd CMD_ERROR], p.2⟩
        | some _ =>
            let st1 := { st with
              transferred_size := st.transferred_size + r.1,
              speed := speedCalc (st.transferred_size + r.1)
                st.start_time now st.speed }
            let w1 := { w with destBytes := w.destBytes ++ p.1 }
            ⟨st1, save_resume_info st1 w1 now, [], p.2⟩

/-- The fields of the REQUEST header together with the accept/reject
decision returned by the host callback. -/
structure RequestArgs where
  file_name : String
  file_size : Nat
  file_hash : String
  accepted : Bool

/-- Result of `_handle_request`: state, filesystem, frames written. -/
structure ReqResult where
  st : TState
  w : World
  out : List Frame
deriving DecidableEq

/-- `_handle_request` (lines 168-243).  On a positive decision the
destination path is fixed, then the sidecar decides the reply: a
parseable record yields `RESUME` plus a `{file_name, transferred_size}`
header, append mode, and `transferred_size` taken from the record; a
missing sidecar yields `ACCEPT`, truncate-write mode, and
`transferred_size = 0`; a sidecar that exists but cannot be parsed makes
`json.load` raise, and the `except` fallback (lines 218-224) also yields
`ACCEPT`, truncate-write, and 0.  All accepting paths then activate the
transfer.  A negative decision sends `REJECT` and touches nothing else. -/
def handle_request (st : TState) (w : World) (a : RequestArgs) (now : Nat) :
    ReqResult :=
  if a.accepted then
    let path := "downloads/" ++ a.file_name
    let activate := fun (s : TState) =>
      { s with transfer_active := true, transfer_paused := false,
               transfer_completed := false, transfer_error := none,
               start_time := now }
    match w.sidecar with
    | some (some r0) =>
        ⟨activate
           { st with
             current_file_path := some path,
             file_size := a.file_size,
             transferred_size := r0.transferred_size,
             current_file := some ⟨FMode.ab, 0⟩ },
         w,
         [Frame.cmd CMD_RESUME,
          Frame.hdr (Header.resumeH a.file_name r0.transferred_size)]⟩
    | some none =>
        ⟨activate
           { st with
             current_file_path := some path,
             file_size := a.file_size,
             transferred_size := 0,
             current_file := some ⟨FMode.wb, 0⟩ },
         { w with destBytes := [] },
         [Frame.cmd CMD_ACCEPT]⟩
    | none =>
        ⟨activate
           { st with
             current_file_path := some path,
             file_size := a.file_size,
             transferred_size := 0,
             current_file := some ⟨FMode.wb, 0⟩ },
         { w with destBytes := [] },
         [Frame.cmd CMD_ACCEPT]⟩
  else
    ⟨st, w, [Frame.cmd CMD_REJECT]⟩

/-- `_handle_complete` (lines 326-376).  The file handle is closed, the
digest of the bytes on disk is recomputed and compared with the received
hash: equal means `transfer_completed := true` and the sidecar is
removed; unequal records the error `"文件校验失败"` and leaves both the
destination bytes and the sidecar untouched.  If no destination path was
ever set, `_calculate_file_hash(None)` raises and the `except` branch
records the error.  `transfer_active` is cleared on every path. -/
def handle_complete (hash : List Nat → String) (st : TState) (w : World)
    (file_hash : String) : TState × World :=
  let st0 := { st with current_file := none }
  match st.current_file_path with
  | none =>
      ({ st0 with transfer_error := some ("invalid path"),
                  transfer_active := false }, w)
  | some _ =>
      if hash w.destBytes = file_hash then
        ({ st0 with transfer_completed := true, transfer_active := false },
         { w with sidecar := none })
      else
        ({ st0 with transfer_error := some ("文件校验失败"),
                    transfer_active := false }, w)

/-- `_handle_error` (lines 378-405): record the received message, clear
`transfer_active`, close the file. -/
def handle_error (st : TState) (msg : String) : TState :=
  { st with transfer_error := some msg, transfer_active := false,
            current_file := none }

/-- The chunking of `_send_file_data`: repeatedly `read(CHUNK_SIZE)` until
the file is exhausted. -/
def chunksFrom (bytes : List Nat) : List (List Nat) :=
  if h : bytes = [] then []
  else bytes.take CHUNK_SIZE :: chunksFrom (bytes.drop CHUNK_SIZE)
termination_by bytes.length
decreasing_by
  rw [List.length_drop]
  have : bytes.length ≠ 0 := fun hz => h (List.length_eq_zero.mp hz)
  simp [CHUNK_SIZE]
  omega

/-- The three frames written per chunk by `_send_file_data`: the `DATA`
command, the 8-byte length, the payload. -/
def chunkFrames : List (List Nat) → List Frame
  | [] => []
  | c :: cs =>
      Frame.cmd CMD_DATA :: Frame.size c.length :: Frame.raw c
        :: chunkFrames cs

/-- One pass of the sender loop body on a chunk of length `n`: advance the
read cursor, add `n` to `transferred_size`, recompute `speed`. -/
def senderAdvance (st : TState) (n : Nat) (now : Nat) : TState :=
  { st with
    current_file := st.current_file.map (fun f => { f with pos := f.pos + n }),
    transferred_size := st.transferred_size + n,
    speed := speedCalc (st.transferred_size + n) st.start_time now st.speed }

/-- The `while self.transfer_active and not self.transfer_paused` loop of
`_send_file_data` (lines 510-545), with `rem` the bytes of the source
file from the current read cursor onward.  Returns the final state, the
frames written, and the trace of states observed after each chunk. -/
def send_loop (now : Nat) (st : TState) (rem : List Nat) :
    TState × List Frame × List TState :=
  if st.transfer_active && !st.transfer_paused then
    let chunk := rem.take CHUNK_SIZE
    if h : chunk.length = 0 then (st, [], [])
    else
      let st1 := senderAdvance st chunk.length now
      let r := send_loop now st1 (rem.drop CHUNK_SIZE)
      (r.1,
       Frame.cmd CMD_DATA :: Frame.size chunk.length :: Frame.raw chunk
         :: r.2.1,
       st1 :: r.2.2)
  else (st, [], [])
termination_by rem.length
decreasing_by
  rw [List.length_drop]
  simp only [chunk] at h
  have h3 : (rem.take CHUNK_SIZE).length ≤ rem.length := by
    rw [List.length_take]
    exact Nat.min_le_right _ _
  have h2 : 0 < CHUNK_SIZE := by decide
  omega

/-- Result of `_send_file_data`: final sender state, frames written, and
the per-chunk state trace. -/
structure SendDataResult where
  st : TState
  out : List Frame
  trace : List TState
deriving DecidableEq

/-- `_send_file_data` (lines 504-596) with `content` the bytes of the
source file.  With no open file while active, the first `read` raises and
the `except` branch (lines 575-596) sends `ERROR` plus an `{error}`
header.  Otherwise the loop streams chunks from the read cursor; on clean
exhaustion with the transfer still active, unpaused and error-free it
sends `COMPLETE` plus a `{file_hash}` header with the digest of the
source file recomputed by `_calculate_file_hash`, marks the transfer
completed and closes the file. -/
def send_file_data (hash : List Nat → String) (content : List Nat)
    (now : Nat) (st : TState) : SendDataResult :=
  match st.current_file with
  | none =>
      if st.transfer_active && !st.transfer_paused then
        ⟨{ st with transfer_error := some ("no open file"),
                   transfer_active := false },
         [Frame.cmd CMD_ERROR, Frame.hdr (Header.errorH ("no open file"))],
         []⟩
      else ⟨st, [], []⟩
  | some f =>
      let r := send_loop now st (content.drop f.pos)
      let st1 := r.1
      if st1.transfer_active && !st1.transfer_paused
          && st1.transfer_error = none then
        ⟨{ st1 with transfer_completed := true, transfer_active := false,
                    current_file := none },
         r.2.1 ++ [Frame.cmd CMD_COMPLETE,
                   Frame.hdr (Header.completeH (hash content))],
         r.2.2⟩
      else ⟨st1, r.2.1, r.2.2⟩

/-- `_handle_resume` (lines 294-324), run by the sender when the peer
replies `RESUME` through the receive loop: seek the open file to the
announced offset, set `transferred_size` to it, reactivate, and run
`_send_file_data`. -/
def handle_resume (hash : List Nat → String) (content : List Nat)
    (st : TState) (transferred : Nat) (now : Nat) : TState × List Frame :=
  let st0 := { st with
    current_file := st.current_file.map (fun f => { f with pos := transferred }),
    transferred_size := transferred,
    transfer_active := true, transfer_paused := false, start_time := now }
  let r := send_file_data hash content now st0
  (r.st, r.out)

/-- Which branch of `send_file` returned; the Python return value is the
boolean `retval` below, and every failing branch returns `False` without
raising (each branch is distinguished in the source by its log message
and callback: `fileNotFound` logs the missing path, `rejected` fires the
`rejected` callback, `unknownReply` logs the unexpected response — the
spec taxonomy names the latter `ProtocolViolation`). -/
inductive SendOutcome
  | notConnected
  | fileNotFound
  | started
  | resumed (transferred : Nat)
  | rejected
  | unknownReply (c : String)
deriving DecidableEq

/-- Result of `send_file`: the Python boolean return value, the branch
taken, the sender state afterwards, and the frames written during the
handshake. -/
structure SendFileResult where
  retval : Bool
  outcome : SendOutcome
  st : TState
  out : List Frame
deriving DecidableEq

/-- `send_file` (lines 407-502) up to and including the reply dispatch
(the data loop itself is `send_file_data`).  `sourceFile` is `none` when
`os.path.exists` fails, else the bytes of the file; `reply` is the
trimmed command the peer answered with, and `resumeOffset` the
`transferred_size` of the RESUME header (read only on that branch). -/
def send_file (hash : List Nat → String) (connected : Bool)
    (sourceFile : Option (List Nat)) (filePath : String) (reply : String)
    (resumeOffset : Nat) (now : Nat) (st : TState) : SendFileResult :=
  if ¬ connected then ⟨false, SendOutcome.notConnected, st, []⟩
  else
    match sourceFile with
    | none => ⟨false, SendOutcome.fileNotFound, st, []⟩
    | some content =>
        let file_hash := hash content
        let req : List Frame :=
          [Frame.cmd CMD_REQUEST,
           Frame.hdr (Header.requestH filePath content.length file_hash)]
        if reply = CMD_ACCEPT then
          ⟨true, SendOutcome.started,
           { st with
             current_file_path := some filePath,
             current_file := some ⟨FMode.rb, 0⟩,
             file_size := content.length,
             transferred_size := 0,
             transfer_active := true,
             transfer_paused := false,
             transfer_completed := false,
             transfer_error := none,
             start_time := now },
           req⟩
        else if reply = CMD_RESUME then
          ⟨true, SendOutcome.resumed resumeOffset,
           { st with
             current_file_path := some filePath,
             current_file := some ⟨FMode.rb, resumeOffset⟩,
             file_size := content.length,
             transferred_size := resumeOffset,
             transfer_active := true,
             transfer_paused := false,
             transfer_completed := false,
             transfer_error := none,
             start_time := now },
           req⟩
        else if reply = CMD_REJECT then
          ⟨false, SendOutcome.rejected, st, req⟩
        else
          ⟨false, SendOutcome.unknownReply reply, st, req⟩

/-- Result of a run of `_receive_loop`: the final state and filesystem,
the frames written in reaction, and the trace of states after each
handled command. -/
structure RecvResult where
  st : TState
  w : World
  out : List Frame
  trace : List TState
deriving DecidableEq

/-- A handler's blocking read of its 1024-byte header, at frame level:
the next frame must be a header. -/
def parseHeaderFrame : List Frame → Option (Header × List Frame)
  | Frame.hdr h :: rest2 => some (h, rest2)
  | _ => none

/-- A handler's blocking read of one chunk (8-byte length then payload),
at frame level. -/
def parseChunkFrames : List Frame → Option (Nat × List Nat × List Frame)
  | Frame.size n :: Frame.raw b :: rest2 => some (n, b, rest2)
  | _ => none

/-- `_receive_loop` (lines 134-166) over a frame-level view of the
incoming stream: each 64-byte command frame appears as `Frame.cmd` with
its already-trimmed token, each 1024-byte header as `Frame.hdr`, and a
chunk as `Frame.size` then `Frame.raw`.  The five known commands
dispatch to their handlers (which read their header or chunk from the
stream); any other command token is logged and ignored and the loop
continues with the next frame.  `accept` is the host callback decision
for REQUEST events, `src` the local source file bytes used when a RESUME
reply restarts `_send_file_data`.  A stream position from which the
byte-level loop would misparse (a header where a command is expected, a
missing header, or a chunk read that does not consume exactly its
announced bytes) stops the model. -/
def receiver_run (hash : List Nat → String) (accept : Bool)
    (src : List Nat) (now : Nat) :
    TState → World → List Frame → RecvResult
  | st, w, [] => ⟨st, w, [], []⟩
  | st, w, Frame.cmd c :: rest =>
      if c = CMD_REQUEST then
        match hq : parseHeaderFrame rest with
        | some (Header.requestH fn fs fh, rest2) =>
            let r := handle_request st w ⟨fn, fs, fh, accept⟩ now
            let k := receiver_run hash accept src now r.st r.w rest2
            ⟨k.st, k.w, r.out ++ k.out, r.st :: k.trace⟩
        | _ => ⟨st, w, [], []⟩
      else if c = CMD_DATA then
        match hq : parseChunkFrames rest with
        | some (n, b, rest2) =>
            let r := handle_data st w (beEncode n ++ b) now
            if r.rest = [] then
              let k := receiver_run hash accept src now r.st r.w rest2
              ⟨k.st, k.w, r.out ++ k.out, r.st :: k.trace⟩
            else ⟨r.st, r.w, r.out, [r.st]⟩
        | none => ⟨st, w, [], []⟩
      else if c = CMD_RESUME then
        match hq : parseHeaderFrame rest with
        | some (Header.resumeH _ t, rest2) =>
            let r := handle_resume hash src st t now
            let k := receiver_run hash accept src now r.1 w rest2
            ⟨k.st, k.w, r.2 ++ k.out, r.1 :: k.trace⟩
        | _ => ⟨st, w, [], []⟩
      else if c = CMD_COMPLETE then
        match hq : parseHeaderFrame rest with
        | some (Header.completeH fh, rest2) =>
            let r := handle_complete hash st w fh
            let k := receiver_run hash accept src now r.1 r.2 rest2
            ⟨k.st, k.w, k.out, r.1 :: k.trace⟩
        | _ => ⟨st, w, [], []⟩
      else if c = CMD_ERROR then
        match hq : parseHeaderFrame rest with
        | some (Header.errorH m, rest2) =>
            let r := handle_error st m
            let k := receiver_run hash accept src now r w rest2
            ⟨k.st, k.w, k.out, r :: k.trace⟩
        | _ => ⟨st, w, [], []⟩
      else
        receiver_run hash accept src now st w rest
  | st, w, _ :: _ => ⟨st, w, [], []⟩
termination_by _ _ frames => frames.length
decreasing_by
  all_goals simp only [List.length_cons]
  case _ =>
    refine Nat.lt_succ_of_lt ?_
    cases rest with
    | nil => simp [parseHeaderFrame] at hq
    | cons f r =>
        cases f <;> simp [parseHeaderFrame] at hq
        rw [hq.2]
        simp
  case _ =>
    refine Nat.lt_succ_of_lt ?_
    cases rest with
    | nil => simp [parseChunkFrames] at hq
    | cons f r =>
        cases f with
        | size m =>
            cases r with
            | nil => simp [parseChunkFrames] at hq
            | cons g r2 =>
                cases g <;> simp [parseChunkFrames] at hq
                rw [hq.2.2]
                simp
                omega
        | cmd c2 => simp [parseChunkFrames] at hq
        | hdr h2 => simp [parseChunkFrames] at hq
        | raw bs => simp [parseChunkFrames] at hq
  case _ =>
    refine Nat.lt_succ_of_lt ?_
    cases rest with
    | nil => simp [parseHeaderFrame] at hq
    | cons f r =>
        cases f <;> simp [parseHeaderFrame] at hq
        rw [hq.2]
        simp
  case _ =>
    refine Nat.lt_succ_of_lt ?_
    cases rest with
    | nil => simp [parseHeaderFrame] at hq
    | cons f r =>
        cases f <;> simp [parseHeaderFrame] at hq
        rw [hq.2]
        simp
  case _ =>
    refine Nat.lt_succ_of_lt ?_
    cases rest with
    | nil => simp [parseHeaderFrame] at hq
    | cons f r =>
        cases f <;> simp [parseHeaderFrame] at hq
        rw [hq.2]
        simp
  case _ => exact Nat.lt_succ_self _

/-- Result of `pause_transfer`: the Python boolean return value, the
state, the filesystem, and the frames written to the socket. -/
structure PauseResult where
  retval : Bool
  st : TState
  w : World
  out : List Frame
deriving DecidableEq

/-- `pause_transfer` (lines 598-623): refuse if no transfer is active;
otherwise set the paused flag, persist the resume record via
`_save_resume_info`, and notify the host.  Nothing is written to the
socket. -/
def pause_transfer (st : TState) (w : World) (now : Nat) : PauseResult :=
  if ¬ st.transfer_active then ⟨false, st, w, []⟩
  else
    let st1 := { st with transfer_paused := true }
    ⟨true, st1, save_resume_info st1 w now, []⟩

/-- Everything observable at the end of a fault-free transfer: the digest
the sender computed before REQUEST, the receiver final state and
filesystem, and the sender final state. -/
structure RunResult where
  senderHash : String
  receiver : TState
  world : World
  sender : TState
deriving DecidableEq

/-- A fault-free Sender-to-Receiver transfer of `content`: the receiver
handles REQUEST with a positive accept decision and no pre-existing
sidecar, the sender reads the reply command produced by that handler,
runs the data loop, and the receiver consumes the emitted frames. -/
def runTransfer (hash : List Nat → String) (content : List Nat)
    (fileName : String) : RunResult :=
  let rq := handle_request initState ⟨[], none⟩
      ⟨fileName, content.length, hash content, true⟩ 0
  let reply := match rq.out with
    | Frame.cmd c :: _ => c
    | _ => ""
  let sf := send_file hash true (some content) fileName reply 0 0 initState
  let sd := send_file_data hash content 0 sf.st
  let fin := receiver_run hash true [] 0 rq.st rq.w sd.out
  ⟨hash content, fin.st, fin.w, sd.st⟩

/-- A concrete digest function used to instantiate the abstract `hash`
parameter in witnesses. -/
def hashLen (l : List Nat) : String :=
  toString (l.length + l.foldl (fun a b => a + b) 0)

/-- The state-and-world effect of one successfully received chunk `b`
(the success branch of `_handle_data`). -/
def applyChunk (now : Nat) (p : TState × World) (b : List Nat) :
    TState × World :=
  let st1 := { p.1 with
    transferred_size := p.1.transferred_size + b.length,
    speed := speedCalc (p.1.transferred_size + b.length)
      p.1.start_time now p.1.speed }
  (st1, save_resume_info st1 { p.2 with destBytes := p.2.destBytes ++ b } now)

/-- Folding `applyChunk` over a chunk list. -/
def applyChunks (now : Nat) (p : TState × World) (cs : List (List Nat)) :
    TState × World :=
  cs.foldl (applyChunk now) p

/-- The receiver states observed after each received chunk. -/
def chunkTrace (now : Nat) : TState × World → List (List Nat) → List TState
  | _, [] => []
  | p, b :: cs => (applyChunk now p b).1 :: chunkTrace now (applyChunk now p b) cs

/-- Folding `senderAdvance` over a chunk list. -/
def senderSteps (now : Nat) : TState → List (List Nat) → TState
  | st, [] => st
  | st, b :: cs => senderSteps now (senderAdvance st b.length now) cs

/-- The sender states observed after each sent chunk. -/
def senderTrace (now : Nat) : TState → List (List Nat) → List TState
  | _, [] => []
  | st, b :: cs =>
      senderAdvance st b.length now
        :: senderTrace now (senderAdvance st b.length now) cs

/-- The §3 invariant `transferredSize ≤ fileSize` restricted to states
that are ACTIVE or PAUSED (`0 ≤ transferredSize` holds by the `Nat`
representation). -/
def invariantBound (s : TState) : Bool :=
  !(s.transfer_active || s.transfer_paused)
    || decide (s.transferred_size ≤ s.file_size)

/-- The receiver state right after accepting a fresh REQUEST (truncate
mode, zero offset). -/
def recvReady (n : Nat) (path : String) : TState :=
  ⟨true, false, false, none, n, 0, 0, 0, some ⟨FMode.wb, 0⟩, some path⟩

/-- The sender state right after the peer replied ACCEPT. -/
def senderReady (n : Nat) (path : String) : TState :=
  ⟨true, false, false, none, n, 0, 0, 0, some ⟨FMode.rb, 0⟩, some path⟩

/-- The command token of the receiver's reply, as the sender reads it
back in `send_file`. -/
def resumeReply (out : List Frame) : String :=
  match out with
  | Frame.cmd c :: _ => c
  | _ => ""

/-- The `transferred_size` field of the RESUME reply header, as the
sender reads it in `send_file`. -/
def resumeOffsetOf (out : List Frame) : Nat :=
  match out with
  | _ :: Frame.hdr (Header.resumeH _ t) :: _ => t
  | _ => 0

/-- The receiver state right after replying RESUME from a sidecar record
with offset `t` (append mode). -/
def recvResumed (n t : Nat) (path : String) : TState :=
  ⟨true, false, false, none, n, t, 0, 0, some ⟨FMode.ab, 0⟩, some path⟩

/-- The sender state right after the peer replied RESUME with offset
`t` (read cursor seeked to `t`). -/
def senderResumed (n t : Nat) (path : String) : TState :=
  ⟨true, false, false, none, n, t, 0, 0, some ⟨FMode.rb, t⟩, some path⟩

/-- Every session state on both sides of a resumed transfer: the
receiver handles REQUEST against a parseable sidecar record `r0` (so it
replies RESUME), the sender adopts the announced offset and streams the
remaining chunks, and the receiver consumes them and the final COMPLETE.
The list holds the receiver state after the handshake, the sender state
after the reply, the sender state after each sent chunk, the receiver
state after each received chunk, and the receiver state after COMPLETE. -/
def resumeRunTrace (hash : List Nat → String) (content prior : List Nat)
    (fileName : String) (r0 : ResumeRecord) : List TState :=
  let rq := handle_request initState ⟨prior, some (some r0)⟩
      ⟨fileName, content.length, hash content, true⟩ 0
  let sf := send_file hash true (some content) fileName
      (resumeReply rq.out) (resumeOffsetOf rq.out) 0 initState
  let sd := send_file_data hash content 0 sf.st
  let fin := receiver_run hash true [] 0 rq.st rq.w sd.out
  rq.st :: sf.st :: sd.trace ++ fin.trace

theorem beEncode_length (n : Nat) : (beEncode n).length = 8 := rfl

theorem beDecode_beEncode (n : Nat) (h : n < 18446744073709551616) :
    beDecode (beEncode n) = n := by
  simp only [beEncode, beDecode, List.foldl]
  omega

theorem min_buf_le (need : Nat) : min BUFFER_SIZE need ≤ need :=
  Nat.min_le_right _ _

theorem min_buf_pos (need : Nat) (h : need ≠ 0) : 0 < min BUFFER_SIZE need :=
  lt_min (by decide) (Nat.pos_of_ne_zero h)

theorem read_chunk_loop_exact (need : Nat) :
    ∀ avail : List Nat, need ≤ avail.length →
      read_chunk_loop avail need = some (avail.take need, avail.drop need) := by
  induction need using Nat.strong_induction_on with
  | _ need ih =>
    intro avail hlen
    rw [read_chunk_loop]
    by_cases h0 : need = 0
    · simp [h0]
    · simp only [h0, dite_false]
      have hm1 : min BUFFER_SIZE need ≤ need := min_buf_le need
      have hm2 : 0 < min BUFFER_SIZE need := min_buf_pos need h0
      have hm : min BUFFER_SIZE need ≤ avail.length := le_trans hm1 hlen
      have hdl : (avail.take (min BUFFER_SIZE need)).length
          = min BUFFER_SIZE need := by
        rw [List.length_take]
        exact Nat.min_eq_left hm
      simp only [hdl]
      have hne : ¬ (min BUFFER_SIZE need) = 0 := by omega
      simp only [hne, dite_false]
      have hrec : read_chunk_loop (avail.drop (min BUFFER_SIZE need))
          (need - min BUFFER_SIZE need)
          = some ((avail.drop (min BUFFER_SIZE need)).take
                    (need - min BUFFER_SIZE need),
                  (avail.drop (min BUFFER_SIZE need)).drop
                    (need - min BUFFER_SIZE need)) := by
        apply ih
        · omega
        · rw [List.length_drop]
          omega
      have htake : avail.take (min BUFFER_SIZE need)
            ++ (avail.drop (min BUFFER_SIZE need)).take
                 (need - min BUFFER_SIZE need)
          = avail.take need := by
        rw [← List.take_add]
        congr 1
        omega
      have hdrop : (avail.drop (min BUFFER_SIZE need)).drop
            (need - min BUFFER_SIZE need)
          = avail.drop need := by
        rw [List.drop_drop]
        congr 1
        omega
      rw [hrec]
      simp [htake, hdrop]

theorem read_chunk_loop_short (need : Nat) :
    ∀ avail : List Nat, avail.length < need →
      read_chunk_loop avail need = none := by
  induction need using Nat.strong_induction_on with
  | _ need ih =>
    intro avail hlen
    rw [read_chunk_loop]
    have h0 : ¬ need = 0 := by omega
    simp only [h0, dite_false]
    have hm1 : min BUFFER_SIZE need ≤ need := min_buf_le need
    have hm2 : 0 < min BUFFER_SIZE need := min_buf_pos need h0
    by_cases hav : avail.length = 0
    · have hz : (avail.take (min BUFFER_SIZE need)).length = 0 := by
        rw [List.length_take]
        omega
      simp [hz]
    · have hdl : (avail.take (min BUFFER_SIZE need)).length
          = min (min BUFFER_SIZE need) avail.length := List.length_take _ _
      have hpos : 0 < min (min BUFFER_SIZE need) avail.length :=
        lt_min hm2 (Nat.pos_of_ne_zero hav)
      have hne : ¬ (avail.take (min BUFFER_SIZE need)).length = 0 := by
        omega
      simp only [hne, dite_false]
      have hrec : read_chunk_loop (avail.drop (min BUFFER_SIZE need))
          (need - (avail.take (min BUFFER_SIZE need)).length) = none := by
        apply ih
        · omega
        · rw [List.length_drop, hdl]
          rcases Nat.le_total (min BUFFER_SIZE need) avail.length with hc | hc
          · rw [Nat.min_eq_left hc]
            omega
          · rw [Nat.min_eq_right hc]
            omega
      rw [hrec]

theorem parseHeaderFrame_length {rest : List Frame} {h : Header}
    {rest2 : List Frame} (hp : parseHeaderFrame rest = some (h, rest2)) :
    rest2.length < rest.length := by
  cases rest with
  | nil => simp [parseHeaderFrame] at hp
  | cons f r =>
      cases f <;> simp [parseHeaderFrame] at hp
      rw [hp.2]
      simp

theorem parseChunkFrames_length {rest : List Frame} {n : Nat} {b : List Nat}
    {rest2 : List Frame}
    (hp : parseChunkFrames rest = some (n, b, rest2)) :
    rest2.length < rest.length := by
  cases rest with
  | nil => simp [parseChunkFrames] at hp
  | cons f r =>
      cases f with
      | size m =>
          cases r with
          | nil => simp [parseChunkFrames] at hp
          | cons g r2 =>
              cases g <;> simp [parseChunkFrames] at hp
              rw [hp.2.2]
              simp
              omega
      | cmd c => simp [parseChunkFrames] at hp
      | hdr h => simp [parseChunkFrames] at hp
      | raw bs => simp [parseChunkFrames] at hp

theorem invariantBound_eq (s : TState) :
    invariantBound s = true
      ↔ ((s.transfer_active = true ∨ s.transfer_paused = true)
          → s.transferred_size ≤ s.file_size) := by
  cases ha : s.transfer_active <;> cases hp : s.transfer_paused <;>
    simp [invariantBound, ha, hp]

/-- C10: If a DATA command is dispatched while the transfer is not active
or is paused, `_handle_data` returns immediately: the destination file
contents, `transferred_size`, `speed`, and the resume sidecar are all
unchanged, and neither the 8-byte chunk-length prefix nor the chunk
payload is read from the socket (the whole incoming stream is left
unread). -/
theorem c10_handle_data_inactive (st : TState) (w : World) (avail : List Nat)
    (now : Nat)
    (h : st.transfer_active = false ∨ st.transfer_paused = true) :
    handle_data st w avail now = ⟨st, w, [], avail⟩ := by
  unfold handle_data
  rcases h with h | h <;> simp [h]

theorem c10_witness :
    handle_data
        { initState with transfer_active := true, transfer_paused := true }
        ⟨[4, 4], none⟩ [9, 9, 9] 5
      = ⟨{ initState with transfer_active := true, transfer_paused := true },
         ⟨[4, 4], none⟩, [], [9, 9, 9]⟩ :=
  c10_handle_data_inactive _ _ _ _ (Or.inr rfl)

/-- C8: A local pause request on an ACTIVE transfer returns success,
writes a `ResumeRecord` carrying the current `transferred_size` (and
`file_size`, path, timestamp) to the resume store, and writes no
command, header, or chunk bytes to the socket; the destination bytes are
untouched, so the peer-visible byte stream is unchanged.  (Every code
path that sets `transfer_active` first sets `current_file_path`, hence
the hypothesis that the path is present.) -/
theorem c8_pause_writes_record_only (st : TState) (w : World) (now : Nat)
    (p : String) (ha : st.transfer_active = true)
    (hp : st.current_file_path = some p) :
    pause_transfer st w now
      = ⟨true, { st with transfer_paused := true },
         { w with
           sidecar :=
             some (some ⟨p, st.file_size, st.transferred_size, now⟩) },
         []⟩ := by
  unfold pause_transfer save_resume_info
  simp [ha, hp]

theorem c8_witness :
    pause_transfer
        { initState with
          transfer_active := true,
          file_size := 9,
          transferred_size := 4,
          current_file_path := some ("d") }
        ⟨[7], none⟩ 3
      = ⟨true,
         { initState with
           transfer_active := true,
           transfer_paused := true,
           file_size := 9,
           transferred_size := 4,
           current_file_path := some ("d") },
         ⟨[7], some (some ⟨"d", 9, 4, 3⟩)⟩, []⟩ :=
  c8_pause_writes_record_only _ _ _ _ rfl rfl

/-- C9: A command frame whose trimmed token is none of REQUEST, DATA,
RESUME, COMPLETE, ERROR is logged and skipped: the receive loop continues
on the remaining stream with the session state, filesystem, output and
trace all exactly as if the frame had not been present, so the next valid
command is still processed and the loop does not terminate. -/
theorem c9_unknown_command_ignored (hash : List Nat → String)
    (accept : Bool) (src : List Nat) (now : Nat) (st : TState) (w : World)
    (c : String) (rest : List Frame)
    (h1 : c ≠ CMD_REQUEST) (h2 : c ≠ CMD_DATA) (h3 : c ≠ CMD_RESUME)
    (h4 : c ≠ CMD_COMPLETE) (h5 : c ≠ CMD_ERROR) :
    receiver_run hash accept src now st w (Frame.cmd c :: rest)
      = receiver_run hash accept src now st w rest := by
  conv_lhs => rw [receiver_run]
  rw [if_neg h1, if_neg h2, if_neg h3, if_neg h4, if_neg h5]

theorem c9_witness :
    receiver_run hashLen true [] 0 initState ⟨[], none⟩
        [Frame.cmd ("PING"), Frame.cmd CMD_ERROR,
         Frame.hdr (Header.errorH ("boom"))]
      = receiver_run hashLen true [] 0 initState ⟨[], none⟩
        [Frame.cmd CMD_ERROR, Frame.hdr (Header.errorH ("boom"))] :=
  c9_unknown_command_ignored hashLen true [] 0 initState ⟨[], none⟩
    ("PING") _ (by decide) (by decide) (by decide) (by decide) (by decide)

/-- C4: With an established connection, `send_file` on a nonexistent path
fails with the file-not-found outcome before writing anything; on a
`REJECT` reply it returns the negative result `False` without raising
(the branch only fires the `rejected` callback); on any reply other than
ACCEPT, RESUME or REJECT it fails on the unknown-reply branch — the
spec's `ProtocolViolation` — again returning `False`.  In the source all
three branches return `False`; they are distinguished by their log
message and callback, which the `SendOutcome` tag mirrors. -/
theorem c4_send_file_failures (hash : List Nat → String)
    (filePath : String) (off now : Nat) (st : TState) :
    (∀ reply, send_file hash true none filePath reply off now st
        = ⟨false, SendOutcome.fileNotFound, st, []⟩) ∧
    (∀ content : List Nat,
        send_file hash true (some content) filePath CMD_REJECT off now st
        = ⟨false, SendOutcome.rejected, st,
           [Frame.cmd CMD_REQUEST,
            Frame.hdr
              (Header.requestH filePath content.length (hash content))]⟩) ∧
    (∀ (content : List Nat) (reply : String),
        reply ≠ CMD_ACCEPT → reply ≠ CMD_RESUME → reply ≠ CMD_REJECT →
        send_file hash true (some content) filePath reply off now st
        = ⟨false, SendOutcome.unknownReply reply, st,
           [Frame.cmd CMD_REQUEST,
            Frame.hdr
              (Header.requestH filePath content.length (hash content))]⟩) := by
  refine ⟨fun reply => rfl, fun content => ?_,
    fun content reply hA hR hJ => ?_⟩
  · simp [send_file, CMD_REJECT, CMD_ACCEPT, CMD_RESUME]
  · simp [send_file, hA, hR, hJ]

theorem c4_witness :
    send_file hashLen true none ("a.bin") ("ACCEPT") 0 0 initState
      = ⟨false, SendOutcome.fileNotFound, initState, []⟩ ∧
    send_file hashLen true (some [1]) ("a.bin") CMD_REJECT 0 0 initState
      = ⟨false, SendOutcome.rejected, initState,
         [Frame.cmd CMD_REQUEST,
          Frame.hdr (Header.requestH ("a.bin") 1 (hashLen [1]))]⟩ ∧
    send_file hashLen true (some [1]) ("a.bin") ("FOO") 0 0 initState
      = ⟨false, SendOutcome.unknownReply ("FOO"), initState,
         [Frame.cmd CMD_REQUEST,
          Frame.hdr (Header.requestH ("a.bin") 1 (hashLen [1]))]⟩ := by
  have h := c4_send_file_failures hashLen ("a.bin") 0 0 initState
  exact ⟨h.1 ("ACCEPT"), h.2.1 [1],
    h.2.2 [1] ("FOO") (by decide) (by decide) (by decide)⟩

/-- C2 as written is false on the code: a sidecar file that exists but
cannot be parsed (here `sidecar = some none`) makes `json.load` raise
inside the `try`, and the fallback replies `ACCEPT` with truncate-write
and `transferred_size = 0` — not `RESUME` as the claim requires for
every existing sidecar. -/
theorem c2_counterexample :
    (⟨[], some none⟩ : World).sidecar.isSome = true ∧
    (handle_request initState ⟨[], some none⟩ ⟨"a.bin", 3, "h", true⟩ 0).out
      = [Frame.cmd CMD_ACCEPT] ∧
    CMD_ACCEPT ≠ CMD_RESUME ∧
    (handle_request initState ⟨[], some none⟩
        ⟨"a.bin", 3, "h", true⟩ 0).st.current_file
      = some ⟨FMode.wb, 0⟩ ∧
    (handle_request initState ⟨[], some none⟩
        ⟨"a.bin", 3, "h", true⟩ 0).st.transferred_size = 0 :=
  ⟨rfl, rfl, by decide, rfl, rfl⟩

/-- C2 (amended): when the accept callback answers true, a missing
sidecar yields `ACCEPT`, truncate-write and `transferred_size = 0`; a
sidecar whose record parses yields `RESUME` with a header carrying the
record's `transferred_size`, append mode, and `transferred_size` set
from the record; a sidecar that exists but cannot be parsed falls back
to `ACCEPT`, truncate-write and 0; a negative decision yields `REJECT`
with no file opened and nothing else changed. -/
theorem c2_handle_request_cases (st : TState) (w : World) (a : RequestArgs)
    (now : Nat) :
    (a.accepted = false →
        handle_request st w a now = ⟨st, w, [Frame.cmd CMD_REJECT]⟩) ∧
    (a.accepted = true → w.sidecar = none →
        (handle_request st w a now).out = [Frame.cmd CMD_ACCEPT] ∧
        (handle_request st w a now).st.current_file = some ⟨FMode.wb, 0⟩ ∧
        (handle_request st w a now).st.transferred_size = 0 ∧
        (handle_request st w a now).w.destBytes = []) ∧
    (∀ r0 : ResumeRecord, a.accepted = true → w.sidecar = some (some r0) →
        (handle_request st w a now).out
          = [Frame.cmd CMD_RESUME,
             Frame.hdr (Header.resumeH a.file_name r0.transferred_size)] ∧
        (handle_request st w a now).st.current_file = some ⟨FMode.ab, 0⟩ ∧
        (handle_request st w a now).st.transferred_size
          = r0.transferred_size ∧
        (handle_request st w a now).w = w) ∧
    (a.accepted = true → w.sidecar = some none →
        (handle_request st w a now).out = [Frame.cmd CMD_ACCEPT] ∧
        (handle_request st w a now).st.current_file = some ⟨FMode.wb, 0⟩ ∧
        (handle_request st w a now).st.transferred_size = 0) := by
  refine ⟨fun h => by simp [handle_request, h],
    fun h hs => by simp [handle_request, h, hs],
    fun r0 h hs => by simp [handle_request, h, hs],
    fun h hs => by simp [handle_request, h, hs]⟩

theorem c2_witness :
    (handle_request initState ⟨[9], some (some ⟨"downloads/a", 7, 4, 1⟩)⟩
        ⟨"a", 7, "h", true⟩ 2).out
      = [Frame.cmd CMD_RESUME, Frame.hdr (Header.resumeH ("a") 4)] ∧
    (handle_request initState ⟨[9], some (some ⟨"downloads/a", 7, 4, 1⟩)⟩
        ⟨"a", 7, "h", true⟩ 2).st.current_file = some ⟨FMode.ab, 0⟩ ∧
    (handle_request initState ⟨[9], some (some ⟨"downloads/a", 7, 4, 1⟩)⟩
        ⟨"a", 7, "h", true⟩ 2).st.transferred_size = 4 := by
  have h := (c2_handle_request_cases initState
      ⟨[9], some (some ⟨"downloads/a", 7, 4, 1⟩)⟩
      ⟨"a", 7, "h", true⟩ 2).2.2.1 ⟨"downloads/a", 7, 4, 1⟩ rfl rfl
  exact ⟨h.1, h.2.1, h.2.2.1⟩

/-- C5: Reading one data chunk first takes the 8-byte big-endian length
from the stream, then loops until exactly that many payload bytes are
accumulated — on a stream holding the full payload it returns exactly
the payload and leaves the remainder unread; if the peer closes before
the full payload has arrived (fewer bytes than announced remain), it
fails with the connection-closed exception (`none`) rather than
returning a short chunk. -/
theorem c5_read_chunk_exact_or_closed (sd : List Nat)
    (h8 : sd.length = 8) :
    (∀ payload rest : List Nat, beDecode sd = payload.length →
        read_chunk (sd ++ (payload ++ rest))
          = (payload.length, some (payload, rest))) ∧
    (∀ cut : List Nat, cut.length < beDecode sd →
        read_chunk (sd ++ cut) = (beDecode sd, none)) := by
  constructor
  · intro payload rest hn
    have ht : (sd ++ (payload ++ rest)).take 8 = sd := by
      rw [← h8]
      exact List.take_left _ _
    have hd : (sd ++ (payload ++ rest)).drop 8 = payload ++ rest := by
      rw [← h8]
      exact List.drop_left _ _
    have hloop : read_chunk_loop (payload ++ rest) payload.length
        = some (payload, rest) := by
      have := read_chunk_loop_exact payload.length (payload ++ rest)
        (by simp)
      rw [List.take_left, List.drop_left] at this
      exact this
    simp only [read_chunk, ht, hd, hn, hloop]
  · intro cut hlen
    have ht : (sd ++ cut).take 8 = sd := by
      rw [← h8]
      exact List.take_left _ _
    have hd : (sd ++ cut).drop 8 = cut := by
      rw [← h8]
      exact List.drop_left _ _
    simp only [read_chunk, ht, hd,
      read_chunk_loop_short (beDecode sd) cut hlen]

theorem c5_witness :
    read_chunk ([0, 0, 0, 0, 0, 0, 0, 2] ++ ([5, 6] ++ [9]))
      = (2, some ([5, 6], [9])) ∧
    read_chunk ([0, 0, 0, 0, 0, 0, 0, 2] ++ [5]) = (2, none) := by
  have h := c5_read_chunk_exact_or_closed [0, 0, 0, 0, 0, 0, 0, 2] rfl
  exact ⟨h.1 [5, 6] [9] rfl, h.2 [5] (by decide)⟩

/-- C3: On COMPLETE the receiver closes the file and recomputes the
digest of the written bytes.  If it equals the received hash the session
is COMPLETED and the sidecar no longer exists; if it differs the session
ends with the hash-mismatch error, not COMPLETED, and the written bytes
are retained on disk (and the sidecar is not deleted either). -/
theorem c3_complete_verifies_digest (hash : List Nat → String)
    (st : TState) (w : World) (file_hash : String) (p : String)
    (hp : st.current_file_path = some p)
    (hc : st.transfer_completed = false) :
    ((handle_complete hash st w file_hash).1.current_file = none) ∧
    (hash w.destBytes = file_hash →
        (handle_complete hash st w file_hash).1.transfer_completed = true ∧
        (handle_complete hash st w file_hash).2.sidecar = none ∧
        (handle_complete hash st w file_hash).2.destBytes = w.destBytes) ∧
    (hash w.destBytes ≠ file_hash →
        (handle_complete hash st w file_hash).1.transfer_completed
            = false ∧
        (handle_complete hash st w file_hash).1.transfer_error
            = some ("文件校验失败") ∧
        (handle_complete hash st w file_hash).2.destBytes = w.destBytes ∧
        (handle_complete hash st w file_hash).2.sidecar = w.sidecar) := by
  unfold handle_complete
  by_cases heq : hash w.destBytes = file_hash <;> simp [hp, hc, heq]

theorem c3_witness :
    ((handle_complete hashLen
        { initState with current_file_path := some ("d") }
        ⟨[2], some (some ⟨"d", 1, 1, 0⟩)⟩
        (hashLen [2])).1.transfer_completed = true ∧
     (handle_complete hashLen
        { initState with current_file_path := some ("d") }
        ⟨[2], some (some ⟨"d", 1, 1, 0⟩)⟩
        (hashLen [2])).2.sidecar = none) ∧
    ((handle_complete hashLen
        { initState with current_file_path := some ("d") }
        ⟨[2], some (some ⟨"d", 1, 1, 0⟩)⟩
        ("nope")).1.transfer_error = some ("文件校验失败") ∧
     (handle_complete hashLen
        { initState with current_file_path := some ("d") }
        ⟨[2], some (some ⟨"d", 1, 1, 0⟩)⟩
        ("nope")).2.destBytes = [2]) := by
  have h1 := c3_complete_verifies_digest hashLen
      { initState with current_file_path := some ("d") }
      ⟨[2], some (some ⟨"d", 1, 1, 0⟩)⟩ (hashLen [2]) ("d") rfl rfl
  have h2 := c3_complete_verifies_digest hashLen
      { initState with current_file_path := some ("d") }
      ⟨[2], some (some ⟨"d", 1, 1, 0⟩)⟩ ("nope") ("d") rfl rfl
  have hne : hashLen [2] ≠ "nope" := by decide
  exact ⟨⟨(h1.2.1 rfl).1, (h1.2.1 rfl).2.1⟩,
    ⟨(h2.2.2 hne).2.1, (h2.2.2 hne).2.2.1⟩⟩

/-- C7 fails on the code: when `_handle_data` hits a fault (here the
peer closed after announcing 10 payload bytes but delivering 3), its
`except` branch (line 292) writes only the 64-byte `ERROR` command frame
and no `{error}` header — even though the socket is still writable and
the peer's `_handle_error` will block reading a 1024-byte header.  (The
`except` branches of `_handle_request` (line 243) and `_handle_resume`
(line 324) share the same omission; `_send_file_data` and
`cancel_transfer` do send the header.) -/
theorem c7_error_without_header :
    (handle_data
        { initState with
          transfer_active := true,
          current_file := some ⟨FMode.wb, 0⟩,
          current_file_path := some ("downloads/a.bin"),
          file_size := 10 }
        ⟨[], none⟩ (beEncode 10 ++ [1, 2, 3]) 1).out
      = [Frame.cmd CMD_ERROR] ∧
    (handle_data
        { initState with
          transfer_active := true,
          current_file := some ⟨FMode.wb, 0⟩,
          current_file_path := some ("downloads/a.bin"),
          file_size := 10 }
        ⟨[], none⟩ (beEncode 10 ++ [1, 2, 3]) 1).st.transfer_error
      = some ("连接已关闭") ∧
    (handle_data
        { initState with
          transfer_active := true,
          current_file := some ⟨FMode.wb, 0⟩,
          current_file_path := some ("downloads/a.bin"),
          file_size := 10 }
        ⟨[], none⟩ (beEncode 10 ++ [1, 2, 3]) 1).st.transfer_active
      = false := by
  have hrc : read_chunk (beEncode 10 ++ [1, 2, 3]) = (10, none) := by
    have ht : (beEncode 10 ++ [1, 2, 3]).take 8 = beEncode 10 := by decide
    have hd : (beEncode 10 ++ [1, 2, 3]).drop 8 = [1, 2, 3] := by decide
    have hdec : beDecode (beEncode 10) = 10 := by decide
    simp only [read_chunk, ht, hd, hdec,
      read_chunk_loop_short 10 [1, 2, 3] (by decide)]
  refine ⟨?_, ?_, ?_⟩ <;> simp [handle_data, hrc, initState]

/-- One successfully received chunk: `_handle_data` on a stream holding
exactly the 8-byte length of `b` followed by `b` consumes the whole
stream, appends `b` to the destination, advances `transferred_size` by
the announced size, recomputes speed, and overwrites the sidecar —
i.e. exactly `applyChunk`. -/
theorem handle_data_chunk (st : TState) (w : World) (b : List Nat)
    (now : Nat) (ha : st.transfer_active = true)
    (hp : st.transfer_paused = false) (hf : st.current_file.isSome = true)
    (hb : b.length < 18446744073709551616) :
    handle_data st w (beEncode b.length ++ b) now
      = ⟨(applyChunk now (st, w) b).1, (applyChunk now (st, w) b).2,
         [], []⟩ := by
  have ht : (beEncode b.length ++ b).take 8 = beEncode b.length := by
    rw [← beEncode_length b.length]
    exact List.take_left _ _
  have hd : (beEncode b.length ++ b).drop 8 = b := by
    rw [← beEncode_length b.length]
    exact List.drop_left _ _
  have hloop : read_chunk_loop b b.length = some (b, []) := by
    have h := read_chunk_loop_exact b.length b le_rfl
    rw [List.take_length, List.drop_length] at h
    exact h
  have hread : read_chunk (beEncode b.length ++ b)
      = (b.length, some (b, [])) := by
    simp only [read_chunk, ht, hd, beDecode_beEncode b.length hb, hloop]
  obtain ⟨f, hf2⟩ := Option.isSome_iff_exists.mp hf
  unfold handle_data
  simp [ha, hp, hread, hf2, applyChunk]

theorem save_resume_info_destBytes (st : TState) (w : World) (now : Nat) :
    (save_resume_info st w now).destBytes = w.destBytes := by
  unfold save_resume_info
  cases h : st.current_file_path <;> simp

theorem applyChunk_st (now : Nat) (p : TState × World) (b : List Nat) :
    (applyChunk now p b).1.transfer_active = p.1.transfer_active ∧
    (applyChunk now p b).1.transfer_paused = p.1.transfer_paused ∧
    (applyChunk now p b).1.transfer_completed = p.1.transfer_completed ∧
    (applyChunk now p b).1.transfer_error = p.1.transfer_error ∧
    (applyChunk now p b).1.file_size = p.1.file_size ∧
    (applyChunk now p b).1.current_file = p.1.current_file ∧
    (applyChunk now p b).1.current_file_path = p.1.current_file_path ∧
    (applyChunk now p b).1.transferred_size
      = p.1.transferred_size + b.length :=
  ⟨rfl, rfl, rfl, rfl, rfl, rfl, rfl, rfl⟩

theorem applyChunk_destBytes (now : Nat) (p : TState × World)
    (b : List Nat) :
    (applyChunk now p b).2.destBytes = p.2.destBytes ++ b := by
  simp [applyChunk, save_resume_info_destBytes]

theorem applyChunks_st (now : Nat) (cs : List (List Nat)) :
    ∀ p : TState × World,
      (applyChunks now p cs).1.transfer_active = p.1.transfer_active ∧
      (applyChunks now p cs).1.transfer_paused = p.1.transfer_paused ∧
      (applyChunks now p cs).1.transfer_completed
        = p.1.transfer_completed ∧
      (applyChunks now p cs).1.transfer_error = p.1.transfer_error ∧
      (applyChunks now p cs).1.file_size = p.1.file_size ∧
      (applyChunks now p cs).1.current_file = p.1.current_file ∧
      (applyChunks now p cs).1.current_file_path
        = p.1.current_file_path ∧
      (applyChunks now p cs).1.transferred_size
        = p.1.transferred_size + (cs.map List.length).sum := by
  induction cs with
  | nil => intro p; simp [applyChunks]
  | cons b cs ih =>
      intro p
      have h1 := applyChunk_st now p b
      have h2 := ih (applyChunk now p b)
      simp only [applyChunks, List.foldl_cons] at h2 ⊢
      refine ⟨?_, ?_, ?_, ?_, ?_, ?_, ?_, ?_⟩ <;>
        simp [h2.1, h2.2.1, h2.2.2.1, h2.2.2.2.1, h2.2.2.2.2.1,
          h2.2.2.2.2.2.1, h2.2.2.2.2.2.2.1, h2.2.2.2.2.2.2.2,
          h1.1, h1.2.1, h1.2.2.1, h1.2.2.2.1, h1.2.2.2.2.1,
          h1.2.2.2.2.2.1, h1.2.2.2.2.2.2.1, h1.2.2.2.2.2.2.2,
          List.sum_cons]
      omega

theorem applyChunks_destBytes (now : Nat) (cs : List (List Nat)) :
    ∀ p : TState × World,
      (applyChunks now p cs).2.destBytes = p.2.destBytes ++ cs.flatten := by
  induction cs with
  | nil => intro p; simp [applyChunks]
  | cons b cs ih =>
      intro p
      simp only [applyChunks, List.foldl_cons] at ih ⊢
      rw [List.flatten_cons, ih (applyChunk now p b), applyChunk_destBytes,
        List.append_assoc]

theorem chunksFrom_flatten_aux (n : Nat) :
    ∀ bytes : List Nat, bytes.length ≤ n →
      (chunksFrom bytes).flatten = bytes := by
  induction n with
  | zero =>
      intro bytes h
      have hb : bytes = [] := List.length_eq_zero.mp (Nat.le_zero.mp h)
      subst hb
      rw [chunksFrom]
      simp
  | succ n ih =>
      intro bytes h
      rw [chunksFrom]
      by_cases hb : bytes = []
      · simp [hb]
      · rw [dif_neg hb, List.flatten_cons,
          ih (bytes.drop CHUNK_SIZE) ?_, List.take_append_drop]
        rw [List.length_drop]
        have h0 : bytes.length ≠ 0 :=
          fun hz => hb (List.length_eq_zero.mp hz)
        have hc : 0 < CHUNK_SIZE := by decide
        omega

theorem chunksFrom_flatten (bytes : List Nat) :
    (chunksFrom bytes).flatten = bytes :=
  chunksFrom_flatten_aux bytes.length bytes le_rfl

theorem chunksFrom_sum (bytes : List Nat) :
    ((chunksFrom bytes).map List.length).sum = bytes.length := by
  rw [← List.length_flatten, chunksFrom_flatten]

theorem chunksFrom_le_aux (n : Nat) :
    ∀ bytes : List Nat, bytes.length ≤ n →
      ∀ c ∈ chunksFrom bytes, c.length ≤ CHUNK_SIZE := by
  induction n with
  | zero =>
      intro bytes h c hc
      have hb : bytes = [] := List.length_eq_zero.mp (Nat.le_zero.mp h)
      subst hb
      rw [chunksFrom] at hc
      simp at hc
  | succ n ih =>
      intro bytes h c hc
      rw [chunksFrom] at hc
      by_cases hb : bytes = []
      · simp [hb] at hc
      · rw [dif_neg hb] at hc
        rcases List.mem_cons.mp hc with hc | hc
        · subst hc
          rw [List.length_take]
          exact Nat.min_le_left _ _
        · refine ih (bytes.drop CHUNK_SIZE) ?_ c hc
          rw [List.length_drop]
          have h0 : bytes.length ≠ 0 :=
            fun hz => hb (List.length_eq_zero.mp hz)
          have hcs : 0 < CHUNK_SIZE := by decide
          omega

theorem chunksFrom_le (bytes : List Nat) :
    ∀ c ∈ chunksFrom bytes, c.length ≤ CHUNK_SIZE :=
  chunksFrom_le_aux bytes.length bytes le_rfl

theorem chunkTrace_bound (now : Nat) (cs : List (List Nat)) :
    ∀ p : TState × World,
      p.1.transferred_size + (cs.map List.length).sum ≤ p.1.file_size →
      ∀ s ∈ chunkTrace now p cs, s.transferred_size ≤ s.file_size := by
  induction cs with
  | nil =>
      intro p h s hs
      simp [chunkTrace] at hs
  | cons b cs ih =>
      intro p h s hs
      simp only [chunkTrace, List.mem_cons] at hs
      have h1 := applyChunk_st now p b
      rcases hs with hs | hs
      · subst hs
        rw [h1.2.2.2.2.2.2.2, h1.2.2.2.2.1]
        simp only [List.map_cons, List.sum_cons] at h
        omega
      · refine ih (applyChunk now p b) ?_ s hs
        rw [h1.2.2.2.2.2.2.2, h1.2.2.2.2.1]
        simp only [List.map_cons, List.sum_cons] at h
        omega

theorem receiver_run_chunkFrames (hash : List Nat → String) (accept : Bool)
    (src : List Nat) (now : Nat) (cs : List (List Nat)) :
    ∀ (st : TState) (w : World) (fs : List Frame),
      st.transfer_active = true → st.transfer_paused = false →
      st.current_file.isSome = true →
      (∀ c ∈ cs, c.length < 18446744073709551616) →
      receiver_run hash accept src now st w (chunkFrames cs ++ fs)
        = ⟨(receiver_run hash accept src now (applyChunks now (st, w) cs).1
              (applyChunks now (st, w) cs).2 fs).st,
           (receiver_run hash accept src now (applyChunks now (st, w) cs).1
              (applyChunks now (st, w) cs).2 fs).w,
           (receiver_run hash accept src now (applyChunks now (st, w) cs).1
              (applyChunks now (st, w) cs).2 fs).out,
           chunkTrace now (st, w) cs
             ++ (receiver_run hash accept src now
                  (applyChunks now (st, w) cs).1
                  (applyChunks now (st, w) cs).2 fs).trace⟩ := by
  induction cs with
  | nil =>
      intro st w fs ha hp hf hb
      simp [chunkFrames, applyChunks, chunkTrace]
  | cons b cs ih =>
      intro st w fs ha hp hf hb
      have hd := handle_data_chunk st w b now ha hp hf
        (hb b (List.mem_cons_self _ _))
      simp only [chunkFrames, List.cons_append]
      conv_lhs => rw [receiver_run]
      rw [if_neg (by decide), if_pos rfl]
      have hparse : parseChunkFrames
          (Frame.size b.length :: Frame.raw b :: (chunkFrames cs ++ fs))
          = some (b.length, b, chunkFrames cs ++ fs) := rfl
      split
      · next n2 b2 rest2 heq =>
          rw [hparse] at heq
          cases heq
          rw [hd]
          have h1 := applyChunk_st now (st, w) b
          rw [if_pos rfl]
          rw [ih (applyChunk now (st, w) b).1 (applyChunk now (st, w) b).2
              fs (by rw [h1.1]; exact ha) (by rw [h1.2.1]; exact hp)
              (by rw [h1.2.2.2.2.2.1]; exact hf)
              (fun c hc => hb c (List.mem_cons_of_mem _ hc))]
          simp only [applyChunks, List.foldl_cons, chunkTrace,
            List.nil_append, List.cons_append]
      · next heq =>
          rw [hparse] at heq
          simp at heq

theorem receiver_run_complete (hash : List Nat → String) (accept : Bool)
    (src : List Nat) (now : Nat) (st : TState) (w : World) (fh : String) :
    receiver_run hash accept src now st w
        [Frame.cmd CMD_COMPLETE, Frame.hdr (Header.completeH fh)]
      = ⟨(handle_complete hash st w fh).1, (handle_complete hash st w fh).2,
         [], [(handle_complete hash st w fh).1]⟩ := by
  conv_lhs => rw [receiver_run]
  rw [if_neg (by decide), if_neg (by decide), if_neg (by decide),
    if_pos rfl]
  have hparse : parseHeaderFrame [Frame.hdr (Header.completeH fh)]
      = some (Header.completeH fh, []) := rfl
  split
  · next fh2 rest2 heq =>
      rw [hparse] at heq
      cases heq
      simp [receiver_run]
  · next heq =>
      exact absurd hparse (heq fh [])

theorem senderAdvance_st (st : TState) (n now : Nat) :
    (senderAdvance st n now).transfer_active = st.transfer_active ∧
    (senderAdvance st n now).transfer_paused = st.transfer_paused ∧
    (senderAdvance st n now).transfer_completed = st.transfer_completed ∧
    (senderAdvance st n now).transfer_error = st.transfer_error ∧
    (senderAdvance st n now).file_size = st.file_size ∧
    (senderAdvance st n now).current_file_path = st.current_file_path ∧
    (senderAdvance st n now).transferred_size
      = st.transferred_size + n :=
  ⟨rfl, rfl, rfl, rfl, rfl, rfl, rfl⟩

theorem senderSteps_st (now : Nat) (cs : List (List Nat)) :
    ∀ st : TState,
      (senderSteps now st cs).transfer_active = st.transfer_active ∧
      (senderSteps now st cs).transfer_paused = st.transfer_paused ∧
      (senderSteps now st cs).transfer_error = st.transfer_error ∧
      (senderSteps now st cs).file_size = st.file_size ∧
      (senderSteps now st cs).transferred_size
        = st.transferred_size + (cs.map List.length).sum := by
  induction cs with
  | nil => intro st; simp [senderSteps]
  | cons b cs ih =>
      intro st
      have h1 := senderAdvance_st st b.length now
      have h2 := ih (senderAdvance st b.length now)
      simp only [senderSteps] at h2 ⊢
      refine ⟨?_, ?_, ?_, ?_, ?_⟩ <;>
        simp [h2.1, h2.2.1, h2.2.2.1, h2.2.2.2.1, h2.2.2.2.2,
          h1.1, h1.2.1, h1.2.2.2.1, h1.2.2.2.2.1, h1.2.2.2.2.2.2,
          List.sum_cons]
      omega

theorem senderTrace_bound (now : Nat) (cs : List (List Nat)) :
    ∀ st : TState,
      st.transferred_size + (cs.map List.length).sum ≤ st.file_size →
      ∀ s ∈ senderTrace now st cs, s.transferred_size ≤ s.file_size := by
  induction cs with
  | nil =>
      intro st h s hs
      simp [senderTrace] at hs
  | cons b cs ih =>
      intro st h s hs
      simp only [senderTrace, List.mem_cons] at hs
      have h1 := senderAdvance_st st b.length now
      rcases hs with hs | hs
      · subst hs
        rw [h1.2.2.2.2.2.2, h1.2.2.2.2.1]
        simp only [List.map_cons, List.sum_cons] at h
        omega
      · refine ih (senderAdvance st b.length now) ?_ s hs
        rw [h1.2.2.2.2.2.2, h1.2.2.2.2.1]
        simp only [List.map_cons, List.sum_cons] at h
        omega

theorem send_loop_spec_aux (now : Nat) (n : Nat) :
    ∀ rem : List Nat, rem.length ≤ n → ∀ st : TState,
      st.transfer_active = true → st.transfer_paused = false →
      send_loop now st rem
        = (senderSteps now st (chunksFrom rem),
           chunkFrames (chunksFrom rem),
           senderTrace now st (chunksFrom rem)) := by
  induction n with
  | zero =>
      intro rem h st ha hp
      have hb : rem = [] := List.length_eq_zero.mp (Nat.le_zero.mp h)
      subst hb
      rw [send_loop, chunksFrom]
      simp [ha, hp, senderSteps, chunkFrames, senderTrace]
  | succ n ih =>
      intro rem h st ha hp
      rw [send_loop, chunksFrom]
      by_cases hb : rem = []
      · subst hb
        simp [ha, hp, senderSteps, chunkFrames, senderTrace]
      · rw [dif_neg hb]
        have h0 : rem.length ≠ 0 :=
          fun hz => hb (List.length_eq_zero.mp hz)
        have hmin : 0 < min CHUNK_SIZE rem.length :=
          lt_min (by decide) (Nat.pos_of_ne_zero h0)
        have hcl : ¬ (rem.take CHUNK_SIZE).length = 0 := by
          rw [List.length_take]
          omega
        have hC : 0 < CHUNK_SIZE := by decide
        have hdrop : (rem.drop CHUNK_SIZE).length ≤ n := by
          rw [List.length_drop]
          omega
        have h1 := senderAdvance_st st (rem.take CHUNK_SIZE).length now
        rw [if_pos (by rw [ha, hp]; rfl), dif_neg hcl]
        simp only [ih (rem.drop CHUNK_SIZE) hdrop
            (senderAdvance st (rem.take CHUNK_SIZE).length now)
            (by rw [h1.1]; exact ha) (by rw [h1.2.1]; exact hp)]
        simp [senderSteps, chunkFrames, senderTrace]

theorem send_loop_spec (now : Nat) (rem : List Nat) (st : TState)
    (ha : st.transfer_active = true) (hp : st.transfer_paused = false) :
    send_loop now st rem
      = (senderSteps now st (chunksFrom rem),
         chunkFrames (chunksFrom rem),
         senderTrace now st (chunksFrom rem)) :=
  send_loop_spec_aux now rem.length rem le_rfl st ha hp

theorem send_file_data_spec (hash : List Nat → String) (content : List Nat)
    (now : Nat) (st : TState) (f : FileHandle)
    (ha : st.transfer_active = true) (hp : st.transfer_paused = false)
    (he : st.transfer_error = none) (hf : st.current_file = some f) :
    send_file_data hash content now st
      = ⟨{ senderSteps now st (chunksFrom (content.drop f.pos)) with
           transfer_completed := true, transfer_active := false,
           current_file := none },
         chunkFrames (chunksFrom (content.drop f.pos))
           ++ [Frame.cmd CMD_COMPLETE,
               Frame.hdr (Header.completeH (hash content))],
         senderTrace now st (chunksFrom (content.drop f.pos))⟩ := by
  have hs := senderSteps_st now (chunksFrom (content.drop f.pos)) st
  have hcond :
      ((senderSteps now st (chunksFrom (content.drop f.pos))).transfer_active
        && !(senderSteps now st
              (chunksFrom (content.drop f.pos))).transfer_paused
        && decide ((senderSteps now st
              (chunksFrom (content.drop f.pos))).transfer_error = none))
        = true := by
    rw [hs.1, hs.2.1, hs.2.2.1, ha, hp, he]
    decide
  simp only [send_file_data, hf,
    send_loop_spec now (content.drop f.pos) st ha hp, hcond, if_true]

/-- C1: A fault-free Sender-to-Receiver transfer (positive accept
decision, no pre-existing sidecar, no socket fault, no pause, no cancel)
writes a destination file byte-identical to the source, ends the
receiver session COMPLETED, and the digest the receiver recomputes after
closing the file equals the digest the sender computed before sending
REQUEST. -/
theorem c1_round_trip (hash : List Nat → String) (content : List Nat)
    (fileName : String) :
    (runTransfer hash content fileName).world.destBytes = content ∧
    (runTransfer hash content fileName).receiver.transfer_completed
      = true ∧
    hash (runTransfer hash content fileName).world.destBytes
      = (runTransfer hash content fileName).senderHash := by
  have hrq : handle_request initState ⟨[], none⟩
      ⟨fileName, content.length, hash content, true⟩ 0
      = ⟨recvReady content.length ("downloads/" ++ fileName), ⟨[], none⟩,
         [Frame.cmd CMD_ACCEPT]⟩ := rfl
  have hsf : send_file hash true (some content) fileName CMD_ACCEPT 0 0
      initState
      = ⟨true, SendOutcome.started, senderReady content.length fileName,
         [Frame.cmd CMD_REQUEST,
          Frame.hdr (Header.requestH fileName content.length
            (hash content))]⟩ := by
    simp [send_file, senderReady, initState]
  have hsd := send_file_data_spec hash content 0
      (senderReady content.length fileName) ⟨FMode.rb, 0⟩ rfl rfl rfl rfl
  simp only [List.drop_zero] at hsd
  have hbound : ∀ c ∈ chunksFrom content,
      c.length < 18446744073709551616 :=
    fun c hc => lt_of_le_of_lt (chunksFrom_le content c hc) (by decide)
  have hrun := receiver_run_chunkFrames hash true [] 0 (chunksFrom content)
      (recvReady content.length ("downloads/" ++ fileName)) ⟨[], none⟩
      [Frame.cmd CMD_COMPLETE, Frame.hdr (Header.completeH (hash content))]
      rfl rfl rfl hbound
  have hcompl := receiver_run_complete hash true [] 0
      (applyChunks 0
        (recvReady content.length ("downloads/" ++ fileName), ⟨[], none⟩)
        (chunksFrom content)).1
      (applyChunks 0
        (recvReady content.length ("downloads/" ++ fileName), ⟨[], none⟩)
        (chunksFrom content)).2
      (hash content)
  have hqs := applyChunks_st 0 (chunksFrom content)
      (recvReady content.length ("downloads/" ++ fileName), ⟨[], none⟩)
  have hpath : (applyChunks 0
      (recvReady content.length ("downloads/" ++ fileName), ⟨[], none⟩)
      (chunksFrom content)).1.current_file_path
      = some ("downloads/" ++ fileName) := hqs.2.2.2.2.2.2.1
  have hqd : (applyChunks 0
      (recvReady content.length ("downloads/" ++ fileName), ⟨[], none⟩)
      (chunksFrom content)).2.destBytes = content := by
    rw [applyChunks_destBytes, chunksFrom_flatten]
    rfl
  have hcmp1 : (handle_complete hash
      (applyChunks 0
        (recvReady content.length ("downloads/" ++ fileName), ⟨[], none⟩)
        (chunksFrom content)).1
      (applyChunks 0
        (recvReady content.length ("downloads/" ++ fileName), ⟨[], none⟩)
        (chunksFrom content)).2
      (hash content)).1.transfer_completed = true := by
    unfold handle_complete
    simp [hpath, hqd]
  have hcmp3 : (handle_complete hash
      (applyChunks 0
        (recvReady content.length ("downloads/" ++ fileName), ⟨[], none⟩)
        (chunksFrom content)).1
      (applyChunks 0
        (recvReady content.length ("downloads/" ++ fileName), ⟨[], none⟩)
        (chunksFrom content)).2
      (hash content)).2.destBytes = content := by
    unfold handle_complete
    simp [hpath, hqd]
  simp only [runTransfer, hrq, hsf, hsd, hrun, hcompl]
  exact ⟨hcmp3, hcmp1, by rw [hcmp3]⟩

theorem handle_complete_flags (hash : List Nat → String) (st : TState)
    (w : World) (fh : String) :
    (handle_complete hash st w fh).1.transfer_active = false ∧
    (handle_complete hash st w fh).1.transfer_paused
      = st.transfer_paused := by
  unfold handle_complete
  cases hp : st.current_file_path <;>
    by_cases heq : hash w.destBytes = fh <;> simp [hp, heq]

/-- C6 (amended): provided the sidecar record's `transferred_size` does
not exceed the announced file size, every reachable session state of the
resumed transfer that is ACTIVE or PAUSED satisfies
`transferredSize ≤ fileSize` (the lower bound `0 ≤ transferredSize` is
the `Nat` representation) — after the resume initialisation from the
sidecar on both sides, after each chunk sent or received, and at
completion.  The code itself never validates the sidecar against the new
request, which is why the proviso is needed (see the counterexample). -/
theorem c6_transferred_within_fileSize (hash : List Nat → String)
    (content prior : List Nat) (fileName : String) (r0 : ResumeRecord)
    (hle : r0.transferred_size ≤ content.length) :
    (resumeRunTrace hash content prior fileName r0).all invariantBound
      = true := by
  have hrq : handle_request initState ⟨prior, some (some r0)⟩
      ⟨fileName, content.length, hash content, true⟩ 0
      = ⟨recvResumed content.length r0.transferred_size
           ("downloads/" ++ fileName),
         ⟨prior, some (some r0)⟩,
         [Frame.cmd CMD_RESUME,
          Frame.hdr (Header.resumeH fileName r0.transferred_size)]⟩ := rfl
  have hrep : resumeReply
      [Frame.cmd CMD_RESUME,
       Frame.hdr (Header.resumeH fileName r0.transferred_size)]
      = CMD_RESUME := rfl
  have hoff : resumeOffsetOf
      [Frame.cmd CMD_RESUME,
       Frame.hdr (Header.resumeH fileName r0.transferred_size)]
      = r0.transferred_size := rfl
  have hsf : send_file hash true (some content) fileName CMD_RESUME
      r0.transferred_size 0 initState
      = ⟨true, SendOutcome.resumed r0.transferred_size,
         senderResumed content.length r0.transferred_size fileName,
         [Frame.cmd CMD_REQUEST,
          Frame.hdr (Header.requestH fileName content.length
            (hash content))]⟩ := by
    simp [send_file, senderResumed, initState, CMD_RESUME, CMD_ACCEPT]
  have hsd0 := send_file_data_spec hash content 0
      (senderResumed content.length r0.transferred_size fileName)
      ⟨FMode.rb, r0.transferred_size⟩ rfl rfl rfl rfl
  have hsd : send_file_data hash content 0
      (senderResumed content.length r0.transferred_size fileName)
      = ⟨{ senderSteps 0
             (senderResumed content.length r0.transferred_size fileName)
             (chunksFrom (content.drop r0.transferred_size)) with
           transfer_completed := true, transfer_active := false,
           current_file := none },
         chunkFrames (chunksFrom (content.drop r0.transferred_size))
           ++ [Frame.cmd CMD_COMPLETE,
               Frame.hdr (Header.completeH (hash content))],
         senderTrace 0
           (senderResumed content.length r0.transferred_size fileName)
           (chunksFrom (content.drop r0.transferred_size))⟩ := hsd0
  have hbound : ∀ c ∈ chunksFrom (content.drop r0.transferred_size),
      c.length < 18446744073709551616 :=
    fun c hc => lt_of_le_of_lt
      (chunksFrom_le (content.drop r0.transferred_size) c hc) (by decide)
  have hrun := receiver_run_chunkFrames hash true [] 0
      (chunksFrom (content.drop r0.transferred_size))
      (recvResumed content.length r0.transferred_size
        ("downloads/" ++ fileName))
      ⟨prior, some (some r0)⟩
      [Frame.cmd CMD_COMPLETE, Frame.hdr (Header.completeH (hash content))]
      rfl rfl rfl hbound
  have hcompl := receiver_run_complete hash true [] 0
      (applyChunks 0
        (recvResumed content.length r0.transferred_size
          ("downloads/" ++ fileName), ⟨prior, some (some r0)⟩)
        (chunksFrom (content.drop r0.transferred_size))).1
      (applyChunks 0
        (recvResumed content.length r0.transferred_size
          ("downloads/" ++ fileName), ⟨prior, some (some r0)⟩)
        (chunksFrom (content.drop r0.transferred_size))).2
      (hash content)
  have hsum : ((chunksFrom (content.drop r0.transferred_size)).map
      List.length).sum = content.length - r0.transferred_size := by
    rw [chunksFrom_sum, List.length_drop]
  have htr : resumeRunTrace hash content prior fileName r0
      = recvResumed content.length r0.transferred_size
          ("downloads/" ++ fileName)
        :: senderResumed content.length r0.transferred_size fileName
        :: (senderTrace 0
              (senderResumed content.length r0.transferred_size fileName)
              (chunksFrom (content.drop r0.transferred_size))
            ++ (chunkTrace 0
                  (recvResumed content.length r0.transferred_size
                    ("downloads/" ++ fileName),
                   ⟨prior, some (some r0)⟩)
                  (chunksFrom (content.drop r0.transferred_size))
                ++ [(handle_complete hash
                      (applyChunks 0
                        (recvResumed content.length r0.transferred_size
                          ("downloads/" ++ fileName),
                         ⟨prior, some (some r0)⟩)
                        (chunksFrom (content.drop r0.transferred_size))).1
                      (applyChunks 0
                        (recvResumed content.length r0.transferred_size
                          ("downloads/" ++ fileName),
                         ⟨prior, some (some r0)⟩)
                        (chunksFrom
                          (content.drop r0.transferred_size))).2
                      (hash content)).1])) := by
    simp only [resumeRunTrace, hrq, hrep, hoff, hsf, hsd, hrun, hcompl]
    rfl
  rw [htr, List.all_eq_true]
  intro s hs
  rw [invariantBound_eq]
  intro hap
  rcases List.mem_cons.mp hs with hs | hs
  · subst hs
    simpa [recvResumed] using hle
  rcases List.mem_cons.mp hs with hs | hs
  · subst hs
    simpa [senderResumed] using hle
  rcases List.mem_append.mp hs with hs | hs
  · refine senderTrace_bound 0 _ _ ?_ s hs
    rw [hsum]
    simp [senderResumed]
    omega
  rcases List.mem_append.mp hs with hs | hs
  · refine chunkTrace_bound 0 _ _ ?_ s hs
    rw [hsum]
    simp [recvResumed]
    omega
  · have hseq := List.mem_singleton.mp hs
    subst hseq
    exfalso
    have hfl := handle_complete_flags hash
        (applyChunks 0
          (recvResumed content.length r0.transferred_size
            ("downloads/" ++ fileName), ⟨prior, some (some r0)⟩)
          (chunksFrom (content.drop r0.transferred_size))).1
        (applyChunks 0
          (recvResumed content.length r0.transferred_size
            ("downloads/" ++ fileName), ⟨prior, some (some r0)⟩)
          (chunksFrom (content.drop r0.transferred_size))).2
        (hash content)
    have hpz : (applyChunks 0
        (recvResumed content.length r0.transferred_size
          ("downloads/" ++ fileName), ⟨prior, some (some r0)⟩)
        (chunksFrom
          (content.drop r0.transferred_size))).1.transfer_paused
        = false :=
      (applyChunks_st 0 (chunksFrom (content.drop r0.transferred_size))
        (recvResumed content.length r0.transferred_size
          ("downloads/" ++ fileName), ⟨prior, some (some r0)⟩)).2.1
    rcases hap with h | h
    · rw [hfl.1] at h
      exact absurd h (by decide)
    · rw [hfl.2, hpz] at h
      exact absurd h (by decide)

/-- C6 as stated fails on the code: a stale sidecar is reachable — an
earlier session for a 5-byte file receives one 5-byte chunk, which
persists a `ResumeRecord` with `transferred_size = 5`; a new REQUEST for
the same name announcing `file_size = 3` is answered from that record
without any validation, leaving an ACTIVE session with
`transferredSize = 5 > 3 = fileSize`. -/
theorem c6_counterexample :
    (handle_request initState
        (handle_data
          (handle_request initState ⟨[], none⟩
            ⟨"a.bin", 5, "h5", true⟩ 0).st
          (handle_request initState ⟨[], none⟩
            ⟨"a.bin", 5, "h5", true⟩ 0).w
          (beEncode 5 ++ [1, 2, 3, 4, 5]) 1).w
        ⟨"a.bin", 3, "h3", true⟩ 2).st.transfer_active = true ∧
    (handle_request initState
        (handle_data
          (handle_request initState ⟨[], none⟩
            ⟨"a.bin", 5, "h5", true⟩ 0).st
          (handle_request initState ⟨[], none⟩
            ⟨"a.bin", 5, "h5", true⟩ 0).w
          (beEncode 5 ++ [1, 2, 3, 4, 5]) 1).w
        ⟨"a.bin", 3, "h3", true⟩ 2).st.transferred_size = 5 ∧
    (handle_request initState
        (handle_data
          (handle_request initState ⟨[], none⟩
            ⟨"a.bin", 5, "h5", true⟩ 0).st
          (handle_request initState ⟨[], none⟩
            ⟨"a.bin", 5, "h5", true⟩ 0).w
          (beEncode 5 ++ [1, 2, 3, 4, 5]) 1).w
        ⟨"a.bin", 3, "h3", true⟩ 2).st.file_size = 3 ∧
    ¬ (handle_request initState
        (handle_data
          (handle_request initState ⟨[], none⟩
            ⟨"a.bin", 5, "h5", true⟩ 0).st
          (handle_request initState ⟨[], none⟩
            ⟨"a.bin", 5, "h5", true⟩ 0).w
          (beEncode 5 ++ [1, 2, 3, 4, 5]) 1).w
        ⟨"a.bin", 3, "h3", true⟩ 2).st.transferred_size
      ≤ (handle_request initState
          (handle_data
            (handle_request initState ⟨[], none⟩
              ⟨"a.bin", 5, "h5", true⟩ 0).st
            (handle_request initState ⟨[], none⟩
              ⟨"a.bin", 5, "h5", true⟩ 0).w
            (beEncode 5 ++ [1, 2, 3, 4, 5]) 1).w
          ⟨"a.bin", 3, "h3", true⟩ 2).st.file_size := by
  have hd := handle_data_chunk
      (handle_request initState ⟨[], none⟩ ⟨"a.bin", 5, "h5", true⟩ 0).st
      (handle_request initState ⟨[], none⟩ ⟨"a.bin", 5, "h5", true⟩ 0).w
      [1, 2, 3, 4, 5] 1 rfl rfl rfl (by decide)
  have hlen : ([1, 2, 3, 4, 5] : List Nat).length = 5 := rfl
  rw [hlen] at hd
  simp only [hd]
  refine ⟨rfl, rfl, rfl, by decide⟩

theorem c6_witness :
    (resumeRunTrace hashLen [1, 2, 3] [9] ("a")
        ⟨"downloads/a", 3, 1, 0⟩).all invariantBound = true :=
  c6_transferred_within_fileSize hashLen [1, 2, 3] [9] ("a")
    ⟨"downloads/a", 3, 1, 0⟩ (by decide)
